import Mathlib

/-!
# Job-Application-Automation: verification of the search/aggregation layer

Shallow embedding of the job-search behavior of the repository:

* `search_jobs` embeds the endpoint `search_jobs` of `jobsearch.py`
  (route `/api/v1/jobs/search-by-title-city`).
* `search_jobs_realtime` embeds the endpoint `search_jobs_realtime` of
  `api_routes.py` (route `/api/v2/search-realtime`).
* The scraper (`real_job_scraper.RealJobScraper.scrape_all_sources`), the
  matcher (`job_matcher.JobMatcher.calculate_match_percentage`) and the
  deduplicator are imported by the routes but their modules are not part of
  the checked sources; they are modelled from the specification (sections
  4.2 to 4.4), as marked on each definition.

Strings are processed as `List Char` (a `String` field is accessed through
`String.data`) so that every definition evaluates inside the kernel.
-/

/-! ## Character-list string helpers -/

/-- Lowercase every character of a character list. -/
def toLowerL (s : List Char) : List Char := s.map Char.toLower

/-- Split a character list at every occurrence of the character `c`.
The result is never empty. -/
def splitOnChar (c : Char) : List Char → List (List Char)
  | [] => [[]]
  | a :: rest =>
    match splitOnChar c rest with
    | [] => if a = c then [[], []] else [[a]]
    | s :: ss => if a = c then [] :: s :: ss else (a :: s) :: ss

/-- Join character lists, putting the character `c` between consecutive
pieces. -/
def joinWithChar (c : Char) : List (List Char) → List Char
  | [] => []
  | [s] => s
  | s :: rest => s ++ c :: joinWithChar c rest

/-- Holds when `p` is an initial segment of `s`. -/
def startsWithL : List Char → List Char → Bool
  | [], _ => true
  | _ :: _, [] => false
  | p :: ps, a :: rest => p = a && startsWithL ps rest

/-- Collapse runs of spaces, trim, and lowercase: the case-insensitive
whitespace normalization used by the duplicate test (spec section 4.3). -/
def wsNormLower (s : List Char) : List Char :=
  joinWithChar ' ' (((splitOnChar ' ' s).filter (fun w => ¬ w.isEmpty)).map toLowerL)

/-! ## URL normalization (spec section 4.3)

Modelled from the spec: the deduplicator is not among the checked sources.
Two URLs are equal after normalization when, once tracking query parameters
(`ref` and `utm_*`) are stripped and the scheme and host are lowercased,
the remaining text coincides. -/

/-- A query parameter is a tracking parameter when its key is `ref` or
starts with `utm_`. Modelled from the spec: "strip tracking query
parameters". -/
def isTrackingParam (p : List Char) : Bool :=
  match splitOnChar '=' p with
  | [] => false
  | k :: _ => k = "ref".data || startsWithL "utm_".data k

/-- Lowercase the scheme and host of a URL base (the part before `?`):
in `scheme://host/path...`, splitting on `/` puts the scheme, an empty
piece and the host in the first three pieces. -/
def lowerSchemeHost (base : List Char) : List Char :=
  match splitOnChar '/' base with
  | s1 :: s2 :: host :: rest =>
      joinWithChar '/' (toLowerL s1 :: toLowerL s2 :: toLowerL host :: rest)
  | pieces => joinWithChar '/' (pieces.map toLowerL)

/-- Modelled from the spec: URL normalization of the deduplicator (section
4.3) — strip tracking query parameters and lowercase scheme and host. -/
def normalizeUrl (u : List Char) : List Char :=
  match splitOnChar '?' u with
  | [] => []
  | base :: queryPieces =>
      let query := joinWithChar '?' queryPieces
      let kept := (splitOnChar '&' query).filter
        (fun p => ¬ p.isEmpty && ¬ isTrackingParam p)
      let base' := lowerSchemeHost base
      if kept.isEmpty then base' else base' ++ '?' :: joinWithChar '&' kept

/-! ## Data model (spec section 3) -/

/-- A normalized job posting (spec section 3). `matchPercentage` is
populated only after matching; the integer score models the rounded
percentage. -/
structure JobPosting where
  source : String := ""
  externalId : String := ""
  title : String := ""
  company : String := ""
  location : String := ""
  description : String := ""
  url : String := ""
  postedAt : Option Nat := none
  salaryRange : Option (ℚ × ℚ × String) := none
  skillsMentioned : List String := []
  matchPercentage : Option ℤ := none
deriving DecidableEq, Repr

/-- A structured candidate profile (spec section 3), supplied by the
caller of the real-time search endpoint as `resume_data`. -/
structure ResumeRecord where
  skills : List String := []
  yearsExperience : Option ℚ := none
  titles : List String := []
  education : Option String := none
  location : Option String := none
deriving DecidableEq, Repr

/-! ## Deduplicator (spec sections 2 and 4.3)

Modelled from the spec: the deduplicator is not among the checked sources.
One scan (`dedup`) runs left to right; each posting is merged into the
first already-kept posting it duplicates, otherwise appended, so the
first-seen order of surviving slots is preserved. Because a merged record
is never re-compared against later survivors, one scan alone can leave a
duplicate pair among its survivors; the deduplicator contract (section 2:
postings that represent the same underlying job are merged) therefore
requires iterating the scan until the survivors hold no duplicate pair,
which is `dedupFix`. -/

/-- Modelled from the spec (section 4.3): two postings are duplicates when
(a) their urls are equal after normalization, or (b) their title, company
and location all match case-insensitively after whitespace
normalization. -/
def isDup (a b : JobPosting) : Bool :=
  normalizeUrl a.url.data = normalizeUrl b.url.data ||
    (wsNormLower a.title.data = wsNormLower b.title.data &&
     wsNormLower a.company.data = wsNormLower b.company.data &&
     wsNormLower a.location.data = wsNormLower b.location.data)

/-- Modelled from the spec (section 4.3): when duplicates are merged, the
surviving record prefers the one with the richer description (longer
non-empty text) and unions the `skillsMentioned` sets (keeping first-seen
token order). -/
def mergeJobs (s j : JobPosting) : JobPosting :=
  let keep :=
    if s.description.data.length < j.description.data.length ∧
        ¬ j.description.data.isEmpty = true then j else s
  { keep with
    skillsMentioned :=
      s.skillsMentioned ++
        j.skillsMentioned.filter (fun t => ¬ s.skillsMentioned.contains t) }

/-- Insert one posting into the list of kept postings: merge it into the
first duplicate, or append it. -/
def insertJob : List JobPosting → JobPosting → List JobPosting
  | [], j => [j]
  | s :: rest, j =>
      if isDup s j then mergeJobs s j :: rest else s :: insertJob rest j

/-- Tail of the deduplication scan: `acc` holds the postings kept so far. -/
def dedupAux : List JobPosting → List JobPosting → List JobPosting
  | acc, [] => acc
  | acc, j :: rest => dedupAux (insertJob acc j) rest

/-- Modelled from the spec (section 4.3): one deduplication scan — merge
each posting into the first kept duplicate, preserving first-seen
order. -/
def dedup (jobs : List JobPosting) : List JobPosting := dedupAux [] jobs

/-- Modelled from the spec (sections 2 and 4.3): the deduplicator —
the scan `dedup`, with its duplicate relation, richer-description
survivor policy and first-duplicate slot, iterated until the survivors
hold no duplicate pair (a scan that merges nothing returns its input
unchanged, so iteration stops exactly when the output is
duplicate-free). Each scan strictly shrinks the list or fixes it, so the
iteration terminates. -/
def dedupFix (x : List JobPosting) : List JobPosting :=
  if h : (dedup x).length < x.length then dedupFix (dedup x) else dedup x
termination_by x.length
decreasing_by exact h

/-! ## Matcher (spec section 4.4)

Modelled from the spec: `job_matcher.JobMatcher` is not among the checked
sources. The score combines weighted sub-scores — skill overlap (60%),
title similarity (25%), experience fit (15%) — each clamped to [0,1]; the
weighted sum is scaled to [0,100] and rounded to the nearest integer. -/

/-- Clamp a rational to the interval [0,1]. -/
def clamp01 (q : ℚ) : ℚ := max 0 (min 1 q)

/-- Size of the intersection of two token lists read as sets. -/
def interCount (a b : List String) : ℕ :=
  (a.dedup.filter (fun t => b.contains t)).length

/-- Modelled from the spec (section 4.4): skill overlap — size of the
intersection of `resume.skills` and `job.skillsMentioned` divided by the
size of `job.skillsMentioned`, contributing 0 (not an error) when
`job.skillsMentioned` is empty. -/
def skillOverlap (r : ResumeRecord) (j : JobPosting) : ℚ :=
  if j.skillsMentioned.isEmpty then 0
  else (interCount r.skills j.skillsMentioned : ℚ) /
    (j.skillsMentioned.dedup.length : ℚ)

/-- Lowercased whitespace-separated tokens of a string. -/
def wsTokens (s : String) : List (List Char) :=
  ((splitOnChar ' ' s.data).filter (fun w => ¬ w.isEmpty)).map toLowerL

/-- Size of the intersection of two character-list token lists read as
sets. -/
def interCountL (a b : List (List Char)) : ℕ :=
  (a.dedup.filter (fun t => b.contains t)).length

/-- Modelled from the spec (section 4.4): title similarity — token-overlap
ratio between `job.title` and the most recent entry of `resume.titles`
(taken to be the first entry), 0 when either token list is empty. -/
def titleSim (r : ResumeRecord) (j : JobPosting) : ℚ :=
  match r.titles with
  | [] => 0
  | t0 :: _ =>
      let jt := wsTokens j.title
      if jt.isEmpty then 0
      else (interCountL jt.dedup (wsTokens t0) : ℚ) / (jt.dedup.length : ℚ)

/-- Modelled from the spec (section 4.4): the experience band inferred
from the job title/description; the spec leaves the inference itself open,
so seniority keywords are used, `none` when no band can be inferred. -/
def inferBand (j : JobPosting) : Option (ℚ × ℚ) :=
  let toks := wsTokens j.title ++ wsTokens j.description
  if toks.contains "senior".data then some (5, 40)
  else if toks.contains "junior".data then some (0, 2)
  else if toks.contains "lead".data then some (7, 40)
  else none

/-- Modelled from the spec (section 4.4): experience fit — 1 when
`resume.yearsExperience` falls inside the inferred band, decaying linearly
outside it, and 1/2 by default when no band can be inferred (or no years
are given: malformed fields degrade, they never raise). -/
def expFit (r : ResumeRecord) (j : JobPosting) : ℚ :=
  match inferBand j, r.yearsExperience with
  | none, _ => 1/2
  | some _, none => 1/2
  | some (lo, hi), some y =>
      if lo ≤ y ∧ y ≤ hi then 1
      else clamp01 (1 - (if y < lo then lo - y else y - hi) / 5)

/-- Modelled from the spec (section 4.4):
`calculate_match_percentage(resume, job)` — sub-scores clamped to [0,1],
weighted 60/25/15, scaled to [0,100] and rounded to the nearest integer. -/
def calculate_match_percentage (r : ResumeRecord) (j : JobPosting) : ℤ :=
  round (60 * clamp01 (skillOverlap r j) + 25 * clamp01 (titleSim r j) +
    15 * clamp01 (expFit r j))

/-- Modelled from the spec (section 4.4): the matcher call is pure — it
produces the score and leaves the resume and job records it was given
unchanged; this wrapper exposes the records a caller observes after the
call. -/
def matcherCall (r : ResumeRecord) (j : JobPosting) :
    ℤ × ResumeRecord × JobPosting :=
  (calculate_match_percentage r j, r, j)

/-! ## Fetch orchestrator (spec section 4.2)

Modelled from the spec: `real_job_scraper.RealJobScraper` is not among the
checked sources. Each adapter invocation yields a `SourceResult`: either
its parsed jobs or a captured failure (timeout, network, parse, rate
limit) — adapters never raise past their boundary, and the orchestrator
consumes the outcomes as values, so no failure propagates as an
exception. -/

/-- Outcome of one source-adapter invocation (the `SourceResult` of spec
section 3, with the timing dropped): jobs on success, a captured error
description on failure. -/
inductive AdapterOutcome where
  | ok : List JobPosting → AdapterOutcome
  | err : String → AdapterOutcome
deriving DecidableEq, Repr

/-- Jobs contributed by one adapter outcome: a failed adapter contributes
nothing, and nothing else. -/
def adapterJobs : AdapterOutcome → List JobPosting
  | .ok js => js
  | .err _ => []

/-- Concatenation of the jobs of the successful adapters, in registration
order. -/
def collectJobs (rs : List AdapterOutcome) : List JobPosting :=
  rs.foldr (fun a acc => adapterJobs a ++ acc) []

/-- Modelled from the spec (section 4.2): `scrape_all_sources` —
concatenate the jobs of the successful adapters in registration order and pass
them through the deduplicator; if every adapter failed this is the empty
list, not an exception. -/
def scrape_all_sources (rs : List AdapterOutcome) : List JobPosting :=
  dedup (collectJobs rs)

/-! ## The two search endpoints (from the checked sources)

The routes await `scraper.scrape_all_sources(...)` inside a `try` block
that catches every exception, so the scrape step is embedded as an
`Except`: `.ok jobs` when the await returns, `.error e` when anything in
the block raises. The wall-clock timestamp fields are omitted. -/

/-- The Python truthiness test `if resume_data:` of `api_routes.py`:
`None` and the empty dict are falsy. The empty dict corresponds to the
record with every field absent. -/
def ResumeRecord.isEmptyRec (r : ResumeRecord) : Bool :=
  r.skills.isEmpty && r.yearsExperience.isNone && r.titles.isEmpty &&
    r.education.isNone && r.location.isNone

/-- Truthiness of the optional `resume_data` body parameter. -/
def resumeTruthy : Option ResumeRecord → Bool
  | none => false
  | some r => ¬ r.isEmptyRec

/-- The loop body `job[..matchPercentage..] = matcher.calculate_match_percentage(job)`
of `api_routes.py` line 32: store the score on the job record. -/
def scoreJob (r : ResumeRecord) (j : JobPosting) : JobPosting :=
  { j with matchPercentage := some (calculate_match_percentage r j) }

/-- The sort key `lambda x: x[..matchPercentage..]` of `api_routes.py`
line 35; on the sorting path every job has just been scored, so the
default is never read. -/
def matchKey (j : JobPosting) : ℤ := j.matchPercentage.getD 0

/-- Stable descending insertion: `x` goes after every element with a
strictly larger key and before the first element with a key at most its
own. -/
def insertDesc {α : Type} (key : α → ℤ) (x : α) : List α → List α
  | [] => [x]
  | a :: rest =>
      if key x < key a then a :: insertDesc key x rest else x :: a :: rest

/-- Stable descending sort — the embedding of Python
`sorted(jobs, key=..., reverse=True)`, which is guaranteed stable and,
with `reverse=True`, descending while keeping equal-key elements in their
original order. A stable descending sort is unique, so any faithful
embedding agrees with this one. -/
def sortDesc {α : Type} (key : α → ℤ) : List α → List α
  | [] => []
  | x :: xs => insertDesc key x (sortDesc key xs)

/-- Response body of `search_jobs_realtime` (`api_routes.py`): the success
path carries `success/jobs/total/timestamp`, the exception path carries
`success/error/jobs`; fields absent from a path are `none`. -/
structure RealtimeResponse where
  success : Bool
  jobs : List JobPosting
  total : Option Nat
  error : Option String
deriving DecidableEq, Repr

/-- Embedding of `search_jobs_realtime` (`api_routes.py` lines 16-50).
`outcome` is the behavior of `await scraper.scrape_all_sources(...)`
inside the `try` block: scraped jobs, or the message of the exception the
block caught. -/
def search_jobs_realtime (outcome : Except String (List JobPosting))
    (resume_data : Option ResumeRecord) : RealtimeResponse :=
  match outcome with
  | .error e => { success := false, jobs := [], total := none, error := some e }
  | .ok jobs0 =>
      let jobs :=
        match resume_data with
        | some r =>
            if r.isEmptyRec then jobs0
            else sortDesc matchKey (jobs0.map (scoreJob r))
        | none => jobs0
      { success := true, jobs := jobs, total := some jobs.length,
        error := none }

/-- Response body of `search_jobs` (`jobsearch.py`): the success path
carries `success/jobs/count/sources/timestamp`, the exception path
carries `success/jobs/count/error`. -/
structure SearchJobsResponse where
  success : Bool
  jobs : List JobPosting
  count : Option Nat
  sources : Option (List String)
  error : Option String
deriving DecidableEq, Repr

/-- Embedding of `search_jobs` (`jobsearch.py` lines 80-103, route
`/api/v1/jobs/search-by-title-city`): on any exception in the `try` block
the endpoint still answers with `success` true, an empty jobs list, a
zero count and a fixed informational note. -/
def search_jobs (outcome : Except String (List JobPosting)) :
    SearchJobsResponse :=
  match outcome with
  | .ok jobs =>
      { success := true, jobs := jobs, count := some jobs.length,
        sources := some ["Indeed", "LinkedIn", "Naukri", "Glassdoor"],
        error := none }
  | .error _ =>
      { success := true, jobs := [], count := some 0, sources := none,
        error := some "Real job sources temporarily unavailable" }

/-! ## Helper lemmas: the stable descending sort -/

theorem insertDesc_perm {α : Type} (key : α → ℤ) (x : α) (l : List α) :
    List.Perm (insertDesc key x l) (x :: l) := by
  induction l with
  | nil => exact List.Perm.refl _
  | cons a rest ih =>
    unfold insertDesc
    by_cases h : key x < key a
    · simp only [if_pos h]
      exact (ih.cons a).trans (List.Perm.swap x a rest)
    · simp only [if_neg h]
      exact List.Perm.refl _

theorem sortDesc_perm {α : Type} (key : α → ℤ) (l : List α) :
    List.Perm (sortDesc key l) l := by
  induction l with
  | nil => exact List.Perm.refl _
  | cons x xs ih =>
    exact (insertDesc_perm key x (sortDesc key xs)).trans (ih.cons x)

theorem mem_sortDesc {α : Type} {key : α → ℤ} {l : List α} {y : α} :
    y ∈ sortDesc key l ↔ y ∈ l :=
  (sortDesc_perm key l).mem_iff

theorem insertDesc_pairwise {α : Type} (key : α → ℤ) (x : α) {l : List α}
    (h : l.Pairwise (fun a b => key b ≤ key a)) :
    (insertDesc key x l).Pairwise (fun a b => key b ≤ key a) := by
  induction l with
  | nil => simp [insertDesc]
  | cons a rest ih =>
    rcases List.pairwise_cons.mp h with ⟨ha, hrest⟩
    unfold insertDesc
    by_cases hk : key x < key a
    · simp only [if_pos hk]
      refine List.pairwise_cons.mpr ⟨?_, ih hrest⟩
      intro b hb
      rcases List.mem_cons.mp ((insertDesc_perm key x rest).mem_iff.mp hb) with
        hb1 | hb1
      · exact hb1 ▸ le_of_lt hk
      · exact ha b hb1
    · simp only [if_neg hk]
      refine List.pairwise_cons.mpr ⟨?_, h⟩
      intro b hb
      rcases List.mem_cons.mp hb with hb1 | hb1
      · exact hb1 ▸ le_of_not_lt hk
      · exact le_trans (ha b hb1) (le_of_not_lt hk)

theorem sortDesc_pairwise {α : Type} (key : α → ℤ) (l : List α) :
    (sortDesc key l).Pairwise (fun a b => key b ≤ key a) := by
  induction l with
  | nil => simp [sortDesc]
  | cons x xs ih => exact insertDesc_pairwise key x ih

theorem filter_insertDesc {α : Type} (key : α → ℤ) (c : ℤ) (x : α)
    (l : List α) :
    (insertDesc key x l).filter (fun y => key y == c) =
      if key x = c then x :: l.filter (fun y => key y == c)
      else l.filter (fun y => key y == c) := by
  induction l with
  | nil =>
    by_cases hx : key x = c <;>
      simp [insertDesc, List.filter_cons, beq_iff_eq, hx]
  | cons a rest ih =>
    unfold insertDesc
    by_cases hk : key x < key a
    · simp only [if_pos hk]
      by_cases hx : key x = c
      · have hac : ¬ (key a = c) := by
          intro hac
          exact absurd (hac.trans hx.symm) (ne_of_gt hk)
        simp [List.filter_cons, beq_iff_eq, hx, hac, ih]
      · simp [List.filter_cons, beq_iff_eq, hx, ih]
    · simp only [if_neg hk]
      by_cases hx : key x = c <;>
        simp [List.filter_cons, beq_iff_eq, hx]

/-! ## Helper lemmas: the deduplicator and the orchestrator -/

theorem insertJob_of_noDup {acc : List JobPosting} {j : JobPosting}
    (h : ∀ s ∈ acc, isDup s j = false) : insertJob acc j = acc ++ [j] := by
  induction acc with
  | nil => rfl
  | cons s rest ih =>
    have hs : isDup s j = false := h s (List.mem_cons_self s rest)
    have ih' := ih (fun s' hs' => h s' (List.mem_cons_of_mem s hs'))
    simp [insertJob, hs, ih']

theorem dedupAux_of_pairwise {y : List JobPosting}
    (hy : y.Pairwise (fun a b => isDup a b = false)) :
    ∀ acc : List JobPosting,
      (∀ s ∈ acc, ∀ j ∈ y, isDup s j = false) → dedupAux acc y = acc ++ y := by
  induction y with
  | nil => intro acc _; simp [dedupAux]
  | cons j rest ih =>
    intro acc hcross
    rcases List.pairwise_cons.mp hy with ⟨hj, hrest⟩
    have h1 : insertJob acc j = acc ++ [j] :=
      insertJob_of_noDup (fun s hs => hcross s hs j (List.mem_cons_self j rest))
    show dedupAux (insertJob acc j) rest = acc ++ j :: rest
    rw [h1, ih hrest (acc ++ [j]) ?_]
    · simp
    · intro s hs j' hj'
      rcases List.mem_append.mp hs with hs1 | hs1
      · exact hcross s hs1 j' (List.mem_cons_of_mem j hj')
      · have : s = j := by simpa using hs1
        exact this ▸ hj j' hj'

/-- A list whose entries are pairwise non-duplicate is a fixed point of
`dedup`. -/
theorem dedup_of_pairwise {y : List JobPosting}
    (hy : y.Pairwise (fun a b => isDup a b = false)) : dedup y = y := by
  have := dedupAux_of_pairwise hy [] (by intro s hs; exact absurd hs (by simp))
  simpa [dedup] using this

/-- One deduplication step never reorders the kept postings: the incoming
posting is merged into the slot of the first survivor it duplicates, or
appended at the end. -/
theorem insertJob_shape (acc : List JobPosting) (j : JobPosting) :
    (∃ i s, acc[i]? = some s ∧ isDup s j = true ∧
      insertJob acc j = acc.set i (mergeJobs s j)) ∨
      insertJob acc j = acc ++ [j] := by
  induction acc with
  | nil => exact Or.inr rfl
  | cons s rest ih =>
    by_cases hd : isDup s j
    · refine Or.inl ⟨0, s, by simp, hd, ?_⟩
      simp [insertJob, hd]
    · have hd' : isDup s j = false := by simpa using hd
      rcases ih with ⟨i, s', h1, h2, h3⟩ | h3
      · refine Or.inl ⟨i + 1, s', by simpa using h1, h2, ?_⟩
        simp [insertJob, hd', h3]
      · refine Or.inr ?_
        simp [insertJob, hd', h3]

theorem insertJob_length (acc : List JobPosting) (j : JobPosting) :
    (insertJob acc j).length = acc.length ∨
      (insertJob acc j).length = acc.length + 1 := by
  induction acc with
  | nil => exact Or.inr rfl
  | cons s rest ih =>
    by_cases hd : isDup s j
    · simp [insertJob, hd]
    · rcases ih with h1 | h1 <;> simp [insertJob, hd, h1]

theorem dedupAux_length_le (l : List JobPosting) :
    ∀ acc : List JobPosting, (dedupAux acc l).length ≤ acc.length + l.length := by
  induction l with
  | nil => intro acc; simp [dedupAux]
  | cons j rest ih =>
    intro acc
    show (dedupAux (insertJob acc j) rest).length ≤ _
    rcases insertJob_length acc j with h1 | h1
    · have := ih (insertJob acc j)
      rw [h1] at this
      simp only [List.length_cons]
      omega
    · have := ih (insertJob acc j)
      rw [h1] at this
      simp only [List.length_cons]
      omega

theorem insertJob_append_of_length {acc : List JobPosting} {j : JobPosting}
    (h : (insertJob acc j).length = acc.length + 1) :
    (∀ s ∈ acc, isDup s j = false) ∧ insertJob acc j = acc ++ [j] := by
  induction acc with
  | nil => exact ⟨by simp, rfl⟩
  | cons s rest ih =>
    by_cases hd : isDup s j
    · exfalso
      have : (insertJob (s :: rest) j).length = rest.length + 1 := by
        simp [insertJob, hd]
      rw [h] at this
      simp at this
    · have hlen : (insertJob rest j).length = rest.length + 1 := by
        have : (insertJob (s :: rest) j).length = (insertJob rest j).length + 1 := by
          simp [insertJob, hd]
        rw [h] at this
        simp at this
        omega
      obtain ⟨hnd, heq⟩ := ih hlen
      refine ⟨?_, ?_⟩
      · intro s' hs'
        rcases List.mem_cons.mp hs' with h1 | h1
        · subst h1
          simpa using hd
        · exact hnd s' h1
      · simp [insertJob, hd, heq]

theorem dedupAux_length_eq (l : List JobPosting) :
    ∀ acc : List JobPosting,
      (dedupAux acc l).length = acc.length + l.length →
      (∀ j ∈ l, ∀ s ∈ acc, isDup s j = false) ∧
      l.Pairwise (fun a b => isDup a b = false) ∧
      dedupAux acc l = acc ++ l := by
  induction l with
  | nil =>
    intro acc _
    exact ⟨by simp, List.Pairwise.nil, by simp [dedupAux]⟩
  | cons j rest ih =>
    intro acc hlen
    have hux : (dedupAux (insertJob acc j) rest).length =
        acc.length + (j :: rest).length := hlen
    have hstep : (insertJob acc j).length = acc.length + 1 := by
      rcases insertJob_length acc j with h1 | h1
      · exfalso
        have hle := dedupAux_length_le rest (insertJob acc j)
        rw [h1] at hle
        simp only [List.length_cons] at hux
        omega
      · exact h1
    obtain ⟨hnd, heq⟩ := insertJob_append_of_length hstep
    have hlen2 : (dedupAux (insertJob acc j) rest).length =
        (acc ++ [j]).length + rest.length := by
      simp only [List.length_cons] at hux
      simp only [List.length_append, List.length_cons, List.length_nil]
      omega
    rw [heq] at hlen2
    obtain ⟨ih1, ih2, ih3⟩ := ih (acc ++ [j]) hlen2
    refine ⟨?_, ?_, ?_⟩
    · intro j' hj' s hs
      rcases List.mem_cons.mp hj' with h1 | h1
      · subst h1
        exact hnd s hs
      · exact ih1 j' h1 s (List.mem_append.mpr (Or.inl hs))
    · refine List.pairwise_cons.mpr ⟨?_, ih2⟩
      intro b hb
      exact ih1 b hb j (List.mem_append.mpr (Or.inr (by simp)))
    · show dedupAux (insertJob acc j) rest = acc ++ j :: rest
      rw [heq, ih3]
      simp


theorem dedup_length_le (x : List JobPosting) : (dedup x).length ≤ x.length := by
  have := dedupAux_length_le x []
  simpa [dedup] using this

theorem dedup_length_eq {x : List JobPosting}
    (h : (dedup x).length = x.length) :
    x.Pairwise (fun a b => isDup a b = false) ∧ dedup x = x := by
  have h0 : (dedupAux [] x).length = ([] : List JobPosting).length + x.length := by
    simpa [dedup] using h
  obtain ⟨_, h2, h3⟩ := dedupAux_length_eq x [] h0
  exact ⟨h2, by simpa [dedup] using h3⟩

theorem dedupFix_pairwise_aux :
    ∀ (n : ℕ) (x : List JobPosting), x.length ≤ n →
      (dedupFix x).Pairwise (fun a b => isDup a b = false) := by
  intro n
  induction n with
  | zero =>
    intro x hx
    have hx0 : x = [] := List.eq_nil_of_length_eq_zero (Nat.le_zero.mp hx)
    subst hx0
    have h0 : dedup ([] : List JobPosting) = [] := rfl
    unfold dedupFix
    rw [h0]
    simp
  | succ n ih =>
    intro x hx
    unfold dedupFix
    by_cases h : (dedup x).length < x.length
    · simp only [dif_pos h]
      exact ih (dedup x) (by omega)
    · simp only [dif_neg h]
      have heq : (dedup x).length = x.length :=
        le_antisymm (dedup_length_le x) (le_of_not_lt h)
      obtain ⟨hp, hfix⟩ := dedup_length_eq heq
      rw [hfix]
      exact hp

/-- The deduplicator leaves no duplicate pair among its survivors — the
contract of spec section 2. -/
theorem dedupFix_pairwise (x : List JobPosting) :
    (dedupFix x).Pairwise (fun a b => isDup a b = false) :=
  dedupFix_pairwise_aux x.length x le_rfl

/-- A list already free of duplicate pairs is a fixed point of the
deduplicator. -/
theorem dedupFix_of_pairwise {y : List JobPosting}
    (hy : y.Pairwise (fun a b => isDup a b = false)) : dedupFix y = y := by
  have hfix : dedup y = y := dedup_of_pairwise hy
  unfold dedupFix
  rw [hfix]
  simp

theorem collectJobs_cons (a : AdapterOutcome) (rs : List AdapterOutcome) :
    collectJobs (a :: rs) = adapterJobs a ++ collectJobs rs := rfl

theorem collectJobs_sublist {rs : List AdapterOutcome} {i : ℕ}
    {js : List JobPosting} (h : rs[i]? = some (.ok js)) :
    js.Sublist (collectJobs rs) := by
  induction rs generalizing i with
  | nil => simp at h
  | cons a rest ih =>
    cases i with
    | zero =>
      have ha : a = .ok js := by simpa using h
      rw [collectJobs_cons, ha]
      exact List.sublist_append_left js (collectJobs rest)
    | succ n =>
      have hn : rest[n]? = some (.ok js) := by simpa using h
      rw [collectJobs_cons]
      exact (ih hn).trans (List.sublist_append_right _ _)

theorem filter_sortDesc {α : Type} (key : α → ℤ) (c : ℤ) (l : List α) :
    (sortDesc key l).filter (fun y => key y == c) =
      l.filter (fun y => key y == c) := by
  induction l with
  | nil => rfl
  | cons x xs ih =>
    show (insertDesc key x (sortDesc key xs)).filter _ = _
    rw [filter_insertDesc]
    by_cases hx : key x = c <;> simp [List.filter_cons, hx, ih]

/-! ## Helper lemmas: the matcher -/

theorem clamp01_nonneg (q : ℚ) : 0 ≤ clamp01 q := le_max_left 0 _

theorem clamp01_le_one (q : ℚ) : clamp01 q ≤ 1 :=
  max_le (by norm_num) (min_le_left 1 q)

theorem round_nonneg_le_100 {w : ℚ} (h1 : 0 ≤ w) (h2 : w ≤ 100) :
    0 ≤ round w ∧ round w ≤ 100 := by
  constructor
  · rw [round_eq]
    exact Int.le_floor.mpr (by push_cast; linarith)
  · rw [round_eq]
    have h3 : (⌊w + 1/2⌋ : ℤ) < 101 := Int.floor_lt.mpr (by push_cast; linarith)
    omega

/-- The endpoint `search_jobs_realtime` on the success path with a truthy
resume record: score every scraped job, then stable-sort descending. -/
theorem realtime_jobs_eq (jobs0 : List JobPosting) (r : ResumeRecord)
    (h : r.isEmptyRec = false) :
    (search_jobs_realtime (Except.ok jobs0) (some r)).jobs =
      sortDesc matchKey (jobs0.map (scoreJob r)) := by
  simp [search_jobs_realtime, h]

/-! ## Claim theorems -/

/-- C1, counterexample: the claim says a search request is never answered
with a failure-flagged response, but when scraping raises, the real-time
endpoint `search_jobs_realtime` of `api_routes.py` answers with
`success = False`. -/
theorem C1_counterexample :
    ¬ ((search_jobs_realtime (Except.error "boom") none).success = true) := by
  decide

/-- C1, amended: both endpoints catch every scraping exception and answer
with an HTTP-success body whose jobs list is empty and which carries an
error note — never a raised server error; `search_jobs` of `jobsearch.py`
keeps `success = True` (with a fixed informational note), while
`search_jobs_realtime` of `api_routes.py` flags `success = False` (with
the exception text) in its exception body. -/
theorem C1_amended (e : String) (rd : Option ResumeRecord)
    (jobs0 : List JobPosting) :
    (search_jobs (Except.error e)).success = true ∧
    (search_jobs (Except.error e)).jobs = [] ∧
    (search_jobs (Except.error e)).error =
      some "Real job sources temporarily unavailable" ∧
    (search_jobs (Except.ok jobs0)).success = true ∧
    (search_jobs_realtime (Except.error e) rd).jobs = [] ∧
    (search_jobs_realtime (Except.error e) rd).error = some e ∧
    (search_jobs_realtime (Except.error e) rd).success = false ∧
    (search_jobs_realtime (Except.ok jobs0) rd).success = true := by
  refine ⟨rfl, rfl, rfl, rfl, rfl, rfl, rfl, ?_⟩
  cases rd with
  | none => rfl
  | some r => simp [search_jobs_realtime]

/-- A job posting carrying only an id and a preset match score, for the
sorting-stability example of the spec (section 8). -/
def exampleJob (id : String) (score : ℤ) : JobPosting :=
  { externalId := id, matchPercentage := some score }

/-- C2: on the success path with a truthy resume record the returned job
list is sorted descending by match percentage, ties keep their original
(pre-sort) relative order (the equal-key subsequences are untouched), and
the spec example holds: scores [80, 80, 90] for ids [1, 2, 3] come out in
order [3, 1, 2]. -/
theorem C2_sorted_stable (jobs0 : List JobPosting) (r : ResumeRecord)
    (h : r.isEmptyRec = false) :
    ((search_jobs_realtime (Except.ok jobs0) (some r)).jobs).Pairwise
      (fun a b => matchKey b ≤ matchKey a) ∧
    (∀ c : ℤ,
      ((search_jobs_realtime (Except.ok jobs0) (some r)).jobs).filter
          (fun x => matchKey x == c) =
        (jobs0.map (scoreJob r)).filter (fun x => matchKey x == c)) ∧
    sortDesc matchKey
        [exampleJob "1" 80, exampleJob "2" 80, exampleJob "3" 90] =
      [exampleJob "3" 90, exampleJob "1" 80, exampleJob "2" 80] := by
  refine ⟨?_, ?_, ?_⟩
  · rw [realtime_jobs_eq jobs0 r h]
    exact sortDesc_pairwise _ _
  · intro c
    rw [realtime_jobs_eq jobs0 r h]
    exact filter_sortDesc _ _ _
  · decide

/-- C2, witness. -/
theorem C2_sorted_stable_witness :
    ({ skills := ["python"] } : ResumeRecord).isEmptyRec = false ∧
    ((search_jobs_realtime (Except.ok [{ title := "Dev" }])
        (some { skills := ["python"] })).jobs).Pairwise
      (fun a b => matchKey b ≤ matchKey a) :=
  ⟨by decide,
   (C2_sorted_stable [{ title := "Dev" }] { skills := ["python"] }
      (by decide)).1⟩

/-- C3, counterexample: a resume record is supplied (`resume_data` is a
present, empty record — the empty dict, which is falsy in Python), yet the
returned job is not scored, refuting "with resume_data present every
returned job is scored". -/
theorem C3_counterexample :
    ¬ (∀ j ∈ (search_jobs_realtime
          (Except.ok [{ url := "https://x.com/1" }]) (some {})).jobs,
        j.matchPercentage.isSome = true) := by
  decide

/-- C3, amended: the matching step is applied if and only if a truthy
(non-empty) resume record is supplied: with a non-empty `resume_data`
every returned job is scored; with `resume_data` absent or equal to the
empty record the scraped job list is returned unchanged. -/
theorem C3_amended (jobs0 : List JobPosting) (r : ResumeRecord) :
    (resumeTruthy (some r) = true →
      ∀ j ∈ (search_jobs_realtime (Except.ok jobs0) (some r)).jobs,
        j.matchPercentage.isSome = true) ∧
    (resumeTruthy (some r) = false →
      (search_jobs_realtime (Except.ok jobs0) (some r)).jobs = jobs0) ∧
    (search_jobs_realtime (Except.ok jobs0) none).jobs = jobs0 := by
  refine ⟨?_, ?_, rfl⟩
  · intro ht j hj
    have he : r.isEmptyRec = false := by
      simpa [resumeTruthy] using ht
    rw [realtime_jobs_eq jobs0 r he] at hj
    rcases List.mem_map.mp (mem_sortDesc.mp hj) with ⟨j0, _, hj0⟩
    rw [← hj0]
    rfl
  · intro hf
    have he : r.isEmptyRec = true := by
      simpa [resumeTruthy] using hf
    simp [search_jobs_realtime, he]

/-- C3, amended, witness. -/
theorem C3_amended_witness :
    resumeTruthy (some { skills := ["python"] }) = true ∧
    resumeTruthy (some {}) = false ∧
    (∀ j ∈ (search_jobs_realtime (Except.ok [{ title := "Dev" }])
        (some { skills := ["python"] })).jobs,
      j.matchPercentage.isSome = true) ∧
    (search_jobs_realtime (Except.ok [{ title := "Dev" }])
        (some {})).jobs = [{ title := "Dev" }] :=
  ⟨by decide, by decide,
   (C3_amended [{ title := "Dev" }] { skills := ["python"] }).1 (by decide),
   (C3_amended [{ title := "Dev" }] {}).2.1 (by decide)⟩

/-- C4: the match percentage is between 0 and 100 for every resume and
job, and an empty `skillsMentioned` makes the skill-overlap sub-score 0
instead of a division error. -/
theorem C4_match_bounds (r : ResumeRecord) (j : JobPosting) :
    0 ≤ calculate_match_percentage r j ∧
    calculate_match_percentage r j ≤ 100 ∧
    (j.skillsMentioned = [] → skillOverlap r j = 0) := by
  have h1 := clamp01_nonneg (skillOverlap r j)
  have h2 := clamp01_le_one (skillOverlap r j)
  have h3 := clamp01_nonneg (titleSim r j)
  have h4 := clamp01_le_one (titleSim r j)
  have h5 := clamp01_nonneg (expFit r j)
  have h6 := clamp01_le_one (expFit r j)
  have hw1 : (0 : ℚ) ≤ 60 * clamp01 (skillOverlap r j) +
      25 * clamp01 (titleSim r j) + 15 * clamp01 (expFit r j) := by linarith
  have hw2 : 60 * clamp01 (skillOverlap r j) + 25 * clamp01 (titleSim r j) +
      15 * clamp01 (expFit r j) ≤ 100 := by linarith
  obtain ⟨hb1, hb2⟩ := round_nonneg_le_100 hw1 hw2
  exact ⟨hb1, hb2, fun hempty => by simp [skillOverlap, hempty]⟩

/-- C4, witness: a job with no mentioned skills. -/
theorem C4_match_bounds_witness :
    0 ≤ calculate_match_percentage {} { title := "Dev" } ∧
    calculate_match_percentage {} { title := "Dev" } ≤ 100 ∧
    skillOverlap {} { title := "Dev" } = 0 :=
  ⟨(C4_match_bounds {} { title := "Dev" }).1,
   (C4_match_bounds {} { title := "Dev" }).2.1,
   (C4_match_bounds {} { title := "Dev" }).2.2 rfl⟩

/-- Job of adapter A in the isolation scenario of the spec (section 8). -/
def jobA : JobPosting :=
  { title := "Backend Dev", company := "Acme", location := "Austin",
    url := "https://a.com/1" }

/-- Job of adapter C in the isolation scenario. -/
def jobC : JobPosting :=
  { title := "Data Engineer", company := "Globex", location := "Austin",
    url := "https://c.com/2" }

/-- Three adapter outcomes for the isolation scenario of the spec
(section 8): adapter A and adapter C succeed, adapter B times out. -/
def adapterA : AdapterOutcome := .ok [jobA]

/-- The adapter that always times out in the isolation scenario. -/
def adapterB : AdapterOutcome := .err "SourceTimeout"

/-- The third adapter of the isolation scenario. -/
def adapterC : AdapterOutcome := .ok [jobC]

/-- C5: adapter failures are isolated — whatever any subset of adapters
does, every job of a non-failing adapter reaches the deduplicator (as an
order-preserving sublist of the concatenation), and, whenever the
collected jobs hold no duplicate pair, it appears unchanged in the output
of `scrape_all_sources`; failures are consumed as values, so none raises
past the orchestrator. -/
theorem C5_adapter_isolation (rs : List AdapterOutcome) (i : ℕ)
    (js : List JobPosting) (h : rs[i]? = some (AdapterOutcome.ok js)) :
    js.Sublist (collectJobs rs) ∧
    ((collectJobs rs).Pairwise (fun a b => isDup a b = false) →
      ∀ j ∈ js, j ∈ scrape_all_sources rs) := by
  refine ⟨collectJobs_sublist h, ?_⟩
  intro hpw j hj
  have hmem : j ∈ collectJobs rs := (collectJobs_sublist h).subset hj
  show j ∈ dedup (collectJobs rs)
  rw [dedup_of_pairwise hpw]
  exact hmem

/-- C5, witness: with adapters A, B, C where B always times out, the
outputs of A and C still appear in the final result. -/
theorem C5_adapter_isolation_witness :
    [jobA].Sublist (collectJobs [adapterA, adapterB, adapterC]) ∧
    jobA ∈ scrape_all_sources [adapterA, adapterB, adapterC] ∧
    jobC ∈ scrape_all_sources [adapterA, adapterB, adapterC] :=
  ⟨(C5_adapter_isolation [adapterA, adapterB, adapterC] 0 [jobA]
      (by decide)).1,
   (C5_adapter_isolation [adapterA, adapterB, adapterC] 0 [jobA]
      (by decide)).2 (by decide) jobA (by decide),
   (C5_adapter_isolation [adapterA, adapterB, adapterC] 2 [jobC]
      (by decide)).2 (by decide) jobC (by decide)⟩

/-- C6: the deduplicator `dedupFix` — the section 4.3 scan iterated until
its survivors hold no duplicate pair, as the section 2 contract requires
— is idempotent on every input sequence, because its output is free of
duplicate pairs and the scan fixes every such list; and deduplication
preserves first-seen order of the surviving postings: each scan step
merges the incoming posting into the slot of the first survivor it
duplicates or appends it at the end, never reordering the kept slots. -/
theorem C6_dedup_idempotent (x : List JobPosting) :
    dedupFix (dedupFix x) = dedupFix x ∧
    ∀ (acc : List JobPosting) (j : JobPosting),
      (∃ i s, acc[i]? = some s ∧ isDup s j = true ∧
        insertJob acc j = acc.set i (mergeJobs s j)) ∨
      insertJob acc j = acc ++ [j] :=
  ⟨dedupFix_of_pairwise (dedupFix_pairwise x), insertJob_shape⟩

/-- C7: two postings that are duplicates — equal URLs after normalization
or case-insensitively equal title, company and location — are merged by
`dedup` into the single surviving posting `mergeJobs a b`. -/
theorem C7_duplicates_merge (a b : JobPosting) (h : isDup a b = true) :
    dedup [a, b] = [mergeJobs a b] := by
  show dedupAux (insertJob (insertJob [] a) b) [] = [mergeJobs a b]
  simp [insertJob, h, dedupAux]

/-- C7, witness: the spec example — the same posting reached through
`?ref=abc` and `?ref=xyz` tracking parameters merges into one. -/
theorem C7_duplicates_merge_witness :
    isDup { url := "https://site.com/job/123?ref=abc" }
        { url := "https://site.com/job/123?ref=xyz" } = true ∧
    dedup [{ url := "https://site.com/job/123?ref=abc" },
           { url := "https://site.com/job/123?ref=xyz" }] =
      [mergeJobs { url := "https://site.com/job/123?ref=abc" }
        { url := "https://site.com/job/123?ref=xyz" }] :=
  ⟨by decide,
   C7_duplicates_merge { url := "https://site.com/job/123?ref=abc" }
     { url := "https://site.com/job/123?ref=xyz" } (by decide)⟩

/-- C8: the matcher is deterministic — identical inputs give identical
scores — and side-effect free: a call hands back the resume and job
records it was given, unchanged. -/
theorem C8_matcher_pure (r r2 : ResumeRecord) (j j2 : JobPosting)
    (hr : r = r2) (hj : j = j2) :
    calculate_match_percentage r j = calculate_match_percentage r2 j2 ∧
    matcherCall r j = (calculate_match_percentage r j, r, j) := by
  subst hr
  subst hj
  exact ⟨rfl, rfl⟩

/-- C8, witness. -/
theorem C8_matcher_pure_witness :
    calculate_match_percentage { skills := ["python"] } { title := "Dev" } =
      calculate_match_percentage { skills := ["python"] } { title := "Dev" } ∧
    matcherCall { skills := ["python"] } { title := "Dev" } =
      (calculate_match_percentage { skills := ["python"] } { title := "Dev" },
       { skills := ["python"] }, { title := "Dev" }) :=
  C8_matcher_pure { skills := ["python"] } { skills := ["python"] }
    { title := "Dev" } { title := "Dev" } rfl rfl

/-- C9, counterexample: on the exception path of `search_jobs_realtime`
the body carries no total field at all (rather than a zero equal to the
empty jobs list length), refuting the claim for that response. -/
theorem C9_counterexample :
    ¬ ((search_jobs_realtime (Except.error "boom") none).total =
      some (search_jobs_realtime (Except.error "boom") none).jobs.length) := by
  decide

/-- C9, amended: every response that carries a count/total field reports
exactly the length of its jobs list: `search_jobs` does so on both paths
(zero on the exception path), `search_jobs_realtime` does so on the
success path, while its exception body omits the field and carries an
empty jobs list. -/
theorem C9_amended_counts :
    (∀ outcome : Except String (List JobPosting),
      (search_jobs outcome).count = some (search_jobs outcome).jobs.length) ∧
    (∀ (jobs0 : List JobPosting) (rd : Option ResumeRecord),
      (search_jobs_realtime (Except.ok jobs0) rd).total =
        some (search_jobs_realtime (Except.ok jobs0) rd).jobs.length) ∧
    (∀ (e : String) (rd : Option ResumeRecord),
      (search_jobs_realtime (Except.error e) rd).total = none ∧
      (search_jobs_realtime (Except.error e) rd).jobs = []) := by
  refine ⟨?_, ?_, ?_⟩
  · intro outcome
    cases outcome <;> rfl
  · intro jobs0 rd
    rfl
  · intro e rd
    exact ⟨rfl, rfl⟩

/-- C10: with a truthy resume record supplied, the returned list is a
permutation of the scraped list with each job scored — no job appears or
disappears — and scoring changes nothing but the `matchPercentage`
field. -/
theorem C10_frame (jobs0 : List JobPosting) (r : ResumeRecord)
    (h : r.isEmptyRec = false) :
    List.Perm (search_jobs_realtime (Except.ok jobs0) (some r)).jobs
      (jobs0.map (scoreJob r)) ∧
    (search_jobs_realtime (Except.ok jobs0) (some r)).jobs.length =
      jobs0.length ∧
    ∀ j : JobPosting,
      (scoreJob r j).source = j.source ∧
      (scoreJob r j).externalId = j.externalId ∧
      (scoreJob r j).title = j.title ∧
      (scoreJob r j).company = j.company ∧
      (scoreJob r j).location = j.location ∧
      (scoreJob r j).description = j.description ∧
      (scoreJob r j).url = j.url ∧
      (scoreJob r j).postedAt = j.postedAt ∧
      (scoreJob r j).salaryRange = j.salaryRange ∧
      (scoreJob r j).skillsMentioned = j.skillsMentioned ∧
      (scoreJob r j).matchPercentage =
        some (calculate_match_percentage r j) := by
  have hperm : List.Perm (search_jobs_realtime (Except.ok jobs0)
      (some r)).jobs (jobs0.map (scoreJob r)) := by
    rw [realtime_jobs_eq jobs0 r h]
    exact sortDesc_perm _ _
  refine ⟨hperm, ?_, ?_⟩
  · rw [hperm.length_eq, List.length_map]
  · intro j
    exact ⟨rfl, rfl, rfl, rfl, rfl, rfl, rfl, rfl, rfl, rfl, rfl⟩

/-- C10, witness. -/
theorem C10_frame_witness :
    List.Perm (search_jobs_realtime (Except.ok [{ title := "Dev" }])
        (some { skills := ["python"] })).jobs
      ([{ title := "Dev" }].map (scoreJob { skills := ["python"] })) ∧
    (search_jobs_realtime (Except.ok [{ title := "Dev" }])
        (some { skills := ["python"] })).jobs.length = 1 :=
  ⟨(C10_frame [{ title := "Dev" }] { skills := ["python"] } (by decide)).1,
   (C10_frame [{ title := "Dev" }] { skills := ["python"] } (by decide)).2.1⟩
